import Mathlib

/-!
Verification of the jest-runner scheduler (`src/packages/jest-runner/src/index.js`).

The embedding models the `TestRunner` class: `runTests` chooses between
`_createInBandTestRun` (sequential, `options.serial`) and
`_createParallelTestRun` (worker pool bounded by a `throat` gate of width
`globalConfig.maxWorkers`).  Single-test execution (`runTest` / the worker
call) is an opaque collaborator, modelled by an oracle from tests to
results.  JS `undefined` error values are modelled as `Option.none`;
promise settlement is modelled with `Except`.
-/

namespace JestRunner

/-- A test descriptor; only its identity matters to the scheduler. -/
structure Test where
  path : String
deriving DecidableEq

/-- A JS error value as the scheduler observes it: `name`, an optional
`type` tag (ordinary `Error`s have none) and a `message`. -/
structure JsError where
  name : String
  type : Option String
  message : String
deriving DecidableEq

/-- The error thrown by `new CancelRun()`: an `Error` subclass whose
`name` is set to `CancelRun`; it carries no `type` tag. -/
def cancelRunError : JsError :=
  { name := "CancelRun", type := none, message := "" }

/-- The type tag checked by `onError`: `err.type === 'ProcessTerminatedError'`. -/
def processTerminatedType : String := "ProcessTerminatedError"

/-- Outcome of executing one test file (the opaque collaborator:
`runTest` in-band, `worker.worker` in the pool): it fulfills with an
opaque result (modelled as a number) or rejects with a JS error. -/
inductive ExecResult where
  | ok (result : Nat)
  | err (e : JsError)
deriving DecidableEq

/-- Events published on the `Emittery` event bus. The error payload of a
failure event is `Option JsError` because the code can emit a failure
whose error value is JS `undefined` (modelled `none`). -/
inductive Event where
  | fileStart (t : Test)
  | fileSuccess (t : Test) (result : Nat)
  | fileFailure (t : Test) (err : Option JsError)
deriving DecidableEq

/-- Calls made to external collaborators, in order. -/
inductive ExtCall where
  | runTestInBand (t : Test)
  | createPool (numWorkers maxRetries : Nat)
  | dispatchWorker (t : Test)
  | endPool
  | logDiagnostic (msg : String)
  | exitProc (code : Nat)
deriving DecidableEq

/-- The `globalConfig` fields the scheduler reads. -/
structure GlobalConfig where
  maxWorkers : Nat
deriving DecidableEq

/-- The `options` argument of `runTests`; only `serial` is read. -/
structure TestRunnerOptions where
  serial : Bool
deriving DecidableEq

/-- Width of the `throat` gate of `_createParallelTestRun`:
`throat(this._globalConfig.maxWorkers)`. -/
def gateWidth (g : GlobalConfig) : Nat := g.maxWorkers

/- Sequential strategy: `_createInBandTestRun`.

The `reduce` builds, for each test, the chain
`promise.then(check/start/runTest).then(emit success).catch(emit failure)`
behind a `throat(1)` mutex, threading the previous chain's promise.  Each
chain is modelled as a function of the settlement of the previous chain. -/

/-- Output of one test's promise chain: its own settlement, the events it
emitted and the collaborator calls it made. -/
structure ChainOut where
  result : Except JsError Unit
  events : List Event
  calls : List ExtCall

/-- One test's chain in `_createInBandTestRun`, given the value of
`watcher.isInterrupted()` at its check and the settlement `prev` of the
previous chain.  Stage 1 is the first `then` (skipped when `prev` is
rejected): throw `CancelRun` if interrupted, else emit start and run the
test in-band.  Stage 2 emits success on fulfillment.  The final `catch`
emits failure on any rejection and fulfills. -/
def inBandChain (oracle : Test → ExecResult) (interruptedNow : Bool)
    (t : Test) (prev : Except JsError Unit) : ChainOut :=
  let stage1 : Except JsError Nat × List Event × List ExtCall :=
    match prev with
    | Except.error e => (Except.error e, [], [])
    | Except.ok _ =>
      if interruptedNow then (Except.error cancelRunError, [], [])
      else
        match oracle t with
        | ExecResult.ok r =>
            (Except.ok r, [Event.fileStart t], [ExtCall.runTestInBand t])
        | ExecResult.err e =>
            (Except.error e, [Event.fileStart t], [ExtCall.runTestInBand t])
  match stage1 with
  | (Except.ok r, evs, cs) =>
      { result := Except.ok (), events := evs ++ [Event.fileSuccess t r], calls := cs }
  | (Except.error e, evs, cs) =>
      { result := Except.ok (), events := evs ++ [Event.fileFailure t (some e)], calls := cs }

/-- The `reduce` of `_createInBandTestRun`, processing the tests in input
order starting from poll index `i`, threading the previous settlement. -/
def inBandRunFrom (oracle : Test → ExecResult) (intr : Nat → Bool) :
    Nat → Except JsError Unit → List Test → ChainOut
  | _, prev, [] => { result := prev, events := [], calls := [] }
  | i, prev, t :: rest =>
    let c := inBandChain oracle (intr i) t prev
    let restOut := inBandRunFrom oracle intr (i + 1) c.result rest
    { result := restOut.result,
      events := c.events ++ restOut.events,
      calls := c.calls ++ restOut.calls }

/-- `_createInBandTestRun(tests, watcher)`: the whole sequential run.
`intr i` is the value `watcher.isInterrupted()` returns at the i-th
test's pre-test check. -/
def createInBandTestRun (oracle : Test → ExecResult) (intr : Nat → Bool)
    (tests : List Test) : ChainOut :=
  inBandRunFrom oracle intr 0 (Except.ok ()) tests

/- Parallel strategy: `_createParallelTestRun`.

The run is a transition system.  `pending` is the FIFO queue of `throat`
jobs created by `tests.map(runTestInWorker)` (one per test, in input
order); `running` holds the tests that acquired a gate slot and were
dispatched to the pool; `interrupted` is the watcher state; `settled`
is the settlement of `Promise.race([runAllTests, onInterrupt])`;
`exitCode` is set when `exit(1)` terminates the process. -/

/-- JS member access `err.type` where `err` may be `undefined`: reading a
property of `undefined` raises a `TypeError`, modelled as the error case. -/
def jsTypeField : Option JsError → Except Unit (Option String)
  | none => Except.error ()
  | some e => Except.ok e.type

/-- Output of the shared handler `onError(err, test)`: the failure event
it emits, whether evaluating `err.type` raised a `TypeError`, and whether
the error was classified as a fatal pool fault
(`err.type === 'ProcessTerminatedError'`). -/
structure HandlerOut where
  events : List Event
  typeErrorRaised : Bool
  fatal : Bool

/-- The shared error handler `onError(err, test)` of
`_createParallelTestRun`: first `emit('test-file-failure', test, err)`,
then inspect `err.type`. -/
def onError (err : Option JsError) (t : Test) : HandlerOut :=
  { events := [Event.fileFailure t err],
    typeErrorRaised :=
      match jsTypeField err with
      | Except.error _ => true
      | Except.ok _ => false,
    fatal :=
      match jsTypeField err with
      | Except.error _ => false
      | Except.ok ty => ty == some processTerminatedType }

/-- State of a parallel run. -/
structure PState where
  pending : List Test
  running : List Test
  events : List Event
  calls : List ExtCall
  interrupted : Bool
  settled : Option (Except JsError Unit)
  exitCode : Option Nat
  handlerTypeErrors : Nat

/-- Initial state of `_createParallelTestRun(tests, watcher)`: the pool
is constructed (`new Worker(..., {maxRetries: 3, numWorkers:
this._globalConfig.maxWorkers})`), all `throat` jobs are queued in input
order, nothing has run. -/
def pInit (g : GlobalConfig) (tests : List Test) : PState :=
  { pending := tests,
    running := [],
    events := [],
    calls := [ExtCall.createPool g.maxWorkers 3],
    interrupted := false,
    settled := none,
    exitCode := none,
    handlerTypeErrors := 0 }

/-- Diagnostic printed by `onError` on a fatal pool fault. -/
def workerQuitMessage : String :=
  "A worker process has quit unexpectedly! Most likely this is an initialization error."

/-- One scheduler step of `_createParallelTestRun` with gate width `K`.
Every constructor requires the process to be alive (`exitCode = none`);
`exit(1)` terminates the host process, after which nothing runs. -/
inductive PStep (K : Nat) (oracle : Test → ExecResult) : PState → PState → Prop where
  | dispatchTest (s : PState) (t : Test) (rest : List Test) :
      s.exitCode = none →
      s.pending = t :: rest →
      s.running.length < K →
      s.interrupted = false →
      PStep K oracle s
        { s with
          pending := rest,
          running := s.running ++ [t],
          events := s.events ++ [Event.fileStart t],
          calls := s.calls ++ [ExtCall.dispatchWorker t] }
  | cancelAtGate (s : PState) (t : Test) (rest : List Test) :
      s.exitCode = none →
      s.pending = t :: rest →
      s.running.length < K →
      s.interrupted = true →
      PStep K oracle s
        { s with
          pending := rest,
          events := s.events ++ (onError none t).events,
          handlerTypeErrors :=
            s.handlerTypeErrors + (if (onError none t).typeErrorRaised then 1 else 0) }
  | completeOk (s : PState) (t : Test) (r : Nat) :
      s.exitCode = none →
      t ∈ s.running →
      oracle t = ExecResult.ok r →
      PStep K oracle s
        { s with
          running := s.running.erase t,
          events := s.events ++ [Event.fileSuccess t r] }
  | completeErr (s : PState) (t : Test) (e : JsError) :
      s.exitCode = none →
      t ∈ s.running →
      oracle t = ExecResult.err e →
      (onError (some e) t).fatal = false →
      PStep K oracle s
        { s with
          running := s.running.erase t,
          events := s.events ++ (onError (some e) t).events }
  | completeFatal (s : PState) (t : Test) (e : JsError) :
      s.exitCode = none →
      t ∈ s.running →
      oracle t = ExecResult.err e →
      (onError (some e) t).fatal = true →
      PStep K oracle s
        { s with
          running := s.running.erase t,
          events := s.events ++ (onError (some e) t).events,
          calls := s.calls ++ [ExtCall.logDiagnostic workerQuitMessage, ExtCall.exitProc 1],
          exitCode := some 1 }
  | fireInterrupt (s : PState) :
      s.exitCode = none →
      s.interrupted = false →
      s.settled = none →
      PStep K oracle s
        { s with
          interrupted := true,
          settled := some (Except.error cancelRunError),
          calls := s.calls ++ [ExtCall.endPool] }
  | fireInterruptLate (s : PState) :
      s.exitCode = none →
      s.interrupted = false →
      s.settled.isSome = true →
      PStep K oracle s { s with interrupted := true }
  | settleAll (s : PState) :
      s.exitCode = none →
      s.pending = [] →
      s.running = [] →
      s.settled = none →
      PStep K oracle s
        { s with
          settled := some (Except.ok ()),
          calls := s.calls ++ [ExtCall.endPool] }

/-- Reachability in the parallel transition system. -/
def PReach (K : Nat) (oracle : Test → ExecResult) : PState → PState → Prop :=
  Relation.ReflTransGen (PStep K oracle)

/-- The settlement of `Promise.race([...]).then(cleanup, cleanup)`:
either race settlement triggers `cleanup`, whose `worker.end()` promise
(here `endResult`) becomes the settlement of the promise `runTests`
returns.  A fulfilled race maps to the Completed outcome, a rejected
race (the `CancelRun` from `onInterrupt`) to Cancelled. -/
inductive RunOutcome where
  | completed
  | cancelled
deriving DecidableEq

def thenCleanup (race : Except JsError Unit) (endResult : Except JsError Unit) :
    Except JsError RunOutcome :=
  match endResult with
  | Except.error e => Except.error e
  | Except.ok _ =>
    match race with
    | Except.ok _ => Except.ok RunOutcome.completed
    | Except.error _ => Except.ok RunOutcome.cancelled

/-- The outcome `runTests` delivers for a parallel run in a given state,
with `worker.end()` modelled as fulfilling (it is an external
collaborator).  `none` while the race is still pending. -/
def deliveredOutcome (s : PState) : Option (Except JsError RunOutcome) :=
  s.settled.map (fun race => thenCleanup race (Except.ok ()))

/-- Observable behaviours of `TestRunner.runTests`: the in-band run when
`options.serial` is set, otherwise any reachable behaviour of the
parallel transition system (the watcher is part of the nondeterministic
environment there). -/
inductive RunTestsBehaviour (g : GlobalConfig) (oracle : Test → ExecResult)
    (intr : Nat → Bool) (tests : List Test) (o : TestRunnerOptions) :
    List Event → List ExtCall → Prop where
  | inBand :
      o.serial = true →
      RunTestsBehaviour g oracle intr tests o
        (createInBandTestRun oracle intr tests).events
        (createInBandTestRun oracle intr tests).calls
  | parallel (s : PState) :
      o.serial = false →
      PReach (gateWidth g) oracle (pInit g tests) s →
      RunTestsBehaviour g oracle intr tests o s.events s.calls

/- Event bookkeeping used to state the claims. -/

/-- Is this event the start event of test `t`? -/
def isStartOf (t : Test) : Event → Bool
  | Event.fileStart u => decide (u = t)
  | Event.fileSuccess _ _ => false
  | Event.fileFailure _ _ => false

/-- Is this event a terminal (success or failure) event of test `t`? -/
def isTerminalOf (t : Test) : Event → Bool
  | Event.fileStart _ => false
  | Event.fileSuccess u _ => decide (u = t)
  | Event.fileFailure u _ => decide (u = t)

/-- Number of start events of `t` in the emitted trace. -/
def startCount (t : Test) (evs : List Event) : Nat :=
  evs.countP (isStartOf t)

/-- Number of terminal events of `t` in the emitted trace. -/
def termCount (t : Test) (evs : List Event) : Nat :=
  evs.countP (isTerminalOf t)

/-- Tests of the start events in the trace, in emission order: the
admission (and dispatch) order of the run. -/
def startedTests (evs : List Event) : List Test :=
  evs.filterMap (fun e =>
    match e with
    | Event.fileStart t => some t
    | Event.fileSuccess _ _ => none
    | Event.fileFailure _ _ => none)

/- Normal forms of the sequential run, proved equal to the chain fold
below. -/

/-- Events one sequential test contributes when the previous chain
fulfilled: the cancellation failure when the watcher is interrupted at
its check, otherwise start followed by its terminal event. -/
def seqBlockEvents (oracle : Test → ExecResult) (intrNow : Bool) (t : Test) :
    List Event :=
  if intrNow then [Event.fileFailure t (some cancelRunError)]
  else
    match oracle t with
    | ExecResult.ok r => [Event.fileStart t, Event.fileSuccess t r]
    | ExecResult.err e => [Event.fileStart t, Event.fileFailure t (some e)]

/-- Events of the sequential run from poll index `i` on. -/
def seqEventsFrom (oracle : Test → ExecResult) (intr : Nat → Bool) :
    Nat → List Test → List Event
  | _, [] => []
  | i, t :: rest =>
    seqBlockEvents oracle (intr i) t ++ seqEventsFrom oracle intr (i + 1) rest

/-- Collaborator calls of the sequential run from poll index `i` on:
one in-band execution per non-cancelled test. -/
def seqCallsFrom (intr : Nat → Bool) : Nat → List Test → List ExtCall
  | _, [] => []
  | i, t :: rest =>
    (if intr i then ([] : List ExtCall) else [ExtCall.runTestInBand t]) ++
      seqCallsFrom intr (i + 1) rest

/- The per-test bookkeeping invariant of a parallel run: which phase each
test is in, and how many start/terminal events it has so far. -/

structure PInv (tests : List Test) (s : PState) : Prop where
  consumed : ∃ done, tests = done ++ s.pending ∧
      List.Sublist (startedTests s.events) done
  runningMem : ∀ t, t ∈ s.running → t ∈ tests
  runningNodup : s.running.Nodup
  pendingCounts : ∀ t, t ∈ s.pending →
      startCount t s.events = 0 ∧ termCount t s.events = 0
  runningCounts : ∀ t, t ∈ s.running →
      startCount t s.events = 1 ∧ termCount t s.events = 0
  doneCounts : ∀ t, t ∈ tests → t ∉ s.pending → t ∉ s.running →
      (startCount t s.events = 1 ∧ termCount t s.events = 1) ∨
      (startCount t s.events = 0 ∧ termCount t s.events = 1)
  otherCounts : ∀ t, t ∉ tests →
      startCount t s.events = 0 ∧ termCount t s.events = 0
  settledShape : s.settled = none ∨ s.settled = some (Except.ok ()) ∨
      s.settled = some (Except.error cancelRunError)
  cleanupCalls : s.calls.count ExtCall.endPool = if s.settled.isSome then 1 else 0
  interruptedSettled : s.interrupted = true → s.settled.isSome = true

/- Concrete fixtures used by witnesses and counterexamples. -/

def tA : Test := { path := "a.test.js" }

def tB : Test := { path := "b.test.js" }

def gOne : GlobalConfig := { maxWorkers := 1 }

def gTwo : GlobalConfig := { maxWorkers := 2 }

/-- An oracle under which every test fulfills. -/
def oracleOk : Test → ExecResult := fun _ => ExecResult.ok 0

/-- The error `jest-worker` produces when a worker exceeded its retries. -/
def fatalError : JsError :=
  { name := "ProcessTerminatedError",
    type := some processTerminatedType,
    message := "A process exceeded the retry limit" }

/-- An ordinary test failure: a plain `Error`, no `type` tag. -/
def ordinaryError : JsError :=
  { name := "Error", type := none, message := "expect failed" }

/-- An oracle under which `tA` reports a fatal pool fault. -/
def oracleFatalA : Test → ExecResult := fun t =>
  if t = tA then ExecResult.err fatalError else ExecResult.ok 0

/-- An oracle under which `tA` fails with an ordinary error. -/
def oracleErrA : Test → ExecResult := fun t =>
  if t = tA then ExecResult.err ordinaryError else ExecResult.ok 0

/-- The options of a serial run. -/
def optSerial : TestRunnerOptions := { serial := true }

/-- A watcher that is never interrupted. -/
def intrNever : Nat → Bool := fun _ => false

/-- A watcher that is interrupted from the start. -/
def intrAlways : Nat → Bool := fun _ => true

/-- Run state of a one-test parallel run after dispatching `tA`. -/
def dispatchedA1 : PState :=
  { pending := [], running := [tA],
    events := [Event.fileStart tA],
    calls := [ExtCall.createPool 1 3, ExtCall.dispatchWorker tA],
    interrupted := false, settled := none, exitCode := none,
    handlerTypeErrors := 0 }

/-- Run state of a one-test parallel run after `tA` succeeded. -/
def drainedA1 : PState :=
  { pending := [], running := [],
    events := [Event.fileStart tA, Event.fileSuccess tA 0],
    calls := [ExtCall.createPool 1 3, ExtCall.dispatchWorker tA],
    interrupted := false, settled := none, exitCode := none,
    handlerTypeErrors := 0 }

/- States of the two-test parallel run of `oracleFatalA` with gate width
two, in which both tests are dispatched and then the fatal fault of `tA`
terminates the process while `tB` is still in flight. -/

def c1s1 : PState :=
  { pending := [tB], running := [tA],
    events := [Event.fileStart tA],
    calls := [ExtCall.createPool 2 3, ExtCall.dispatchWorker tA],
    interrupted := false, settled := none, exitCode := none,
    handlerTypeErrors := 0 }

def c1s2 : PState :=
  { pending := [], running := [tA, tB],
    events := [Event.fileStart tA, Event.fileStart tB],
    calls := [ExtCall.createPool 2 3, ExtCall.dispatchWorker tA,
      ExtCall.dispatchWorker tB],
    interrupted := false, settled := none, exitCode := none,
    handlerTypeErrors := 0 }

def c1s3 : PState :=
  { pending := [], running := [tB],
    events := [Event.fileStart tA, Event.fileStart tB,
      Event.fileFailure tA (some fatalError)],
    calls := [ExtCall.createPool 2 3, ExtCall.dispatchWorker tA,
      ExtCall.dispatchWorker tB, ExtCall.logDiagnostic workerQuitMessage,
      ExtCall.exitProc 1],
    interrupted := false, settled := none, exitCode := some 1,
    handlerTypeErrors := 0 }

/-- Final state of the one-test parallel run of `oracleFatalA`: the fatal
fault terminated the process before the race could settle, so no
`worker.end()` call was ever made. -/
def c3s2 : PState :=
  { pending := [], running := [],
    events := [Event.fileStart tA, Event.fileFailure tA (some fatalError)],
    calls := [ExtCall.createPool 1 3, ExtCall.dispatchWorker tA,
      ExtCall.logDiagnostic workerQuitMessage, ExtCall.exitProc 1],
    interrupted := false, settled := none, exitCode := some 1,
    handlerTypeErrors := 0 }

/- States of the two-test parallel run with gate width one in which the
watcher fires while `tB` waits at the gate: after `tA` completes, the
queued job for `tB` sees the interruption and rejects with `undefined`. -/

def c9s1 : PState :=
  { pending := [tB], running := [tA],
    events := [Event.fileStart tA],
    calls := [ExtCall.createPool 1 3, ExtCall.dispatchWorker tA],
    interrupted := false, settled := none, exitCode := none,
    handlerTypeErrors := 0 }

def c9s2 : PState :=
  { pending := [tB], running := [tA],
    events := [Event.fileStart tA],
    calls := [ExtCall.createPool 1 3, ExtCall.dispatchWorker tA,
      ExtCall.endPool],
    interrupted := true, settled := some (Except.error cancelRunError),
    exitCode := none, handlerTypeErrors := 0 }

def c9s3 : PState :=
  { pending := [tB], running := [],
    events := [Event.fileStart tA, Event.fileSuccess tA 0],
    calls := [ExtCall.createPool 1 3, ExtCall.dispatchWorker tA,
      ExtCall.endPool],
    interrupted := true, settled := some (Except.error cancelRunError),
    exitCode := none, handlerTypeErrors := 0 }

def c9s4 : PState :=
  { pending := [], running := [],
    events := [Event.fileStart tA, Event.fileSuccess tA 0,
      Event.fileFailure tB none],
    calls := [ExtCall.createPool 1 3, ExtCall.dispatchWorker tA,
      ExtCall.endPool],
    interrupted := true, settled := some (Except.error cancelRunError),
    exitCode := none, handlerTypeErrors := 1 }

@[simp] theorem startCount_nil (t : Test) : startCount t [] = 0 := rfl

@[simp] theorem termCount_nil (t : Test) : termCount t [] = 0 := rfl

@[simp] theorem startedTests_nil : startedTests [] = [] := rfl

@[simp] theorem startCount_append (t : Test) (l₁ l₂ : List Event) :
    startCount t (l₁ ++ l₂) = startCount t l₁ + startCount t l₂ :=
  List.countP_append _ _ _

@[simp] theorem termCount_append (t : Test) (l₁ l₂ : List Event) :
    termCount t (l₁ ++ l₂) = termCount t l₁ + termCount t l₂ :=
  List.countP_append _ _ _

@[simp] theorem startedTests_append (l₁ l₂ : List Event) :
    startedTests (l₁ ++ l₂) = startedTests l₁ ++ startedTests l₂ :=
  List.filterMap_append _ _ _

@[simp] theorem startCount_fileStart (t u : Test) :
    startCount t [Event.fileStart u] = if u = t then 1 else 0 := by
  by_cases h : u = t <;> simp [startCount, List.countP_cons, isStartOf, h]

@[simp] theorem startCount_fileSuccess (t u : Test) (r : Nat) :
    startCount t [Event.fileSuccess u r] = 0 := by
  simp [startCount, List.countP_cons, isStartOf]

@[simp] theorem startCount_fileFailure (t u : Test) (e : Option JsError) :
    startCount t [Event.fileFailure u e] = 0 := by
  simp [startCount, List.countP_cons, isStartOf]

@[simp] theorem termCount_fileStart (t u : Test) :
    termCount t [Event.fileStart u] = 0 := by
  simp [termCount, List.countP_cons, isTerminalOf]

@[simp] theorem termCount_fileSuccess (t u : Test) (r : Nat) :
    termCount t [Event.fileSuccess u r] = if u = t then 1 else 0 := by
  by_cases h : u = t <;> simp [termCount, List.countP_cons, isTerminalOf, h]

@[simp] theorem termCount_fileFailure (t u : Test) (e : Option JsError) :
    termCount t [Event.fileFailure u e] = if u = t then 1 else 0 := by
  by_cases h : u = t <;> simp [termCount, List.countP_cons, isTerminalOf, h]

@[simp] theorem startedTests_fileStart (t : Test) :
    startedTests [Event.fileStart t] = [t] := rfl

@[simp] theorem startedTests_fileSuccess (t : Test) (r : Nat) :
    startedTests [Event.fileSuccess t r] = [] := rfl

@[simp] theorem startedTests_fileFailure (t : Test) (e : Option JsError) :
    startedTests [Event.fileFailure t e] = [] := rfl

@[simp] theorem startCount_cons_fileStart (t u : Test) (l : List Event) :
    startCount t (Event.fileStart u :: l) =
      startCount t l + if u = t then 1 else 0 := by
  simp [startCount, List.countP_cons, isStartOf]

@[simp] theorem startCount_cons_fileSuccess (t u : Test) (r : Nat) (l : List Event) :
    startCount t (Event.fileSuccess u r :: l) = startCount t l := by
  simp [startCount, List.countP_cons, isStartOf]

@[simp] theorem startCount_cons_fileFailure (t u : Test) (e : Option JsError)
    (l : List Event) :
    startCount t (Event.fileFailure u e :: l) = startCount t l := by
  simp [startCount, List.countP_cons, isStartOf]

@[simp] theorem termCount_cons_fileStart (t u : Test) (l : List Event) :
    termCount t (Event.fileStart u :: l) = termCount t l := by
  simp [termCount, List.countP_cons, isTerminalOf]

@[simp] theorem termCount_cons_fileSuccess (t u : Test) (r : Nat) (l : List Event) :
    termCount t (Event.fileSuccess u r :: l) =
      termCount t l + if u = t then 1 else 0 := by
  simp [termCount, List.countP_cons, isTerminalOf]

@[simp] theorem termCount_cons_fileFailure (t u : Test) (e : Option JsError)
    (l : List Event) :
    termCount t (Event.fileFailure u e :: l) =
      termCount t l + if u = t then 1 else 0 := by
  simp [termCount, List.countP_cons, isTerminalOf]

@[simp] theorem startedTests_cons_fileStart (t : Test) (l : List Event) :
    startedTests (Event.fileStart t :: l) = t :: startedTests l := rfl

@[simp] theorem startedTests_cons_fileSuccess (t : Test) (r : Nat) (l : List Event) :
    startedTests (Event.fileSuccess t r :: l) = startedTests l := rfl

@[simp] theorem startedTests_cons_fileFailure (t : Test) (e : Option JsError)
    (l : List Event) :
    startedTests (Event.fileFailure t e :: l) = startedTests l := rfl

@[simp] theorem onError_events (err : Option JsError) (t : Test) :
    (onError err t).events = [Event.fileFailure t err] := rfl

/- Gate bound: the invariant behind claim C6. -/

theorem pstep_running_le {K : Nat} {oracle : Test → ExecResult} {s s' : PState}
    (h : PStep K oracle s s') (hK : s.running.length ≤ K) :
    s'.running.length ≤ K := by
  cases h with
  | dispatchTest t rest h1 h2 h3 h4 =>
      simpa [List.length_append] using h3
  | cancelAtGate t rest h1 h2 h3 h4 => exact hK
  | completeOk t r h1 h2 h3 =>
      exact le_trans (List.Sublist.length_le (List.erase_sublist t s.running)) hK
  | completeErr t e h1 h2 h3 h4 =>
      exact le_trans (List.Sublist.length_le (List.erase_sublist t s.running)) hK
  | completeFatal t e h1 h2 h3 h4 =>
      exact le_trans (List.Sublist.length_le (List.erase_sublist t s.running)) hK
  | fireInterrupt h1 h2 h3 => exact hK
  | fireInterruptLate h1 h2 h3 => exact hK
  | settleAll h1 h2 h3 h4 => exact hK

theorem preach_running_le {K : Nat} {oracle : Test → ExecResult} {s0 s : PState}
    (h : PReach K oracle s0 s) (h0 : s0.running.length ≤ K) :
    s.running.length ≤ K := by
  induction h with
  | refl => exact h0
  | tail hab hbc ih => exact pstep_running_le hbc ih

theorem pinv_init (g : GlobalConfig) (tests : List Test) :
    PInv tests (pInit g tests) := by
  refine
    { consumed := ⟨[], by simp [pInit], by simp [pInit]⟩,
      runningMem := ?_, runningNodup := ?_, pendingCounts := ?_,
      runningCounts := ?_, doneCounts := ?_, otherCounts := ?_,
      settledShape := ?_, cleanupCalls := ?_, interruptedSettled := ?_ } <;>
    simp [pInit]

theorem pinv_not_mem_running_of_mem_pending {tests : List Test} {s : PState}
    (hI : PInv tests s) {t : Test} (hp : t ∈ s.pending) : t ∉ s.running := by
  intro hr
  have h1 := (hI.pendingCounts t hp).1
  have h2 := (hI.runningCounts t hr).1
  omega

theorem pinv_pending_nodup {tests : List Test} {s : PState}
    (hnd : tests.Nodup) (hI : PInv tests s) : s.pending.Nodup := by
  obtain ⟨done, htests, -⟩ := hI.consumed
  rw [htests] at hnd
  exact hnd.of_append_right

theorem pinv_preserved {K : Nat} {oracle : Test → ExecResult}
    {tests : List Test} {s s' : PState} (hnd : tests.Nodup)
    (h : PStep K oracle s s') (hI : PInv tests s) : PInv tests s' := by
  obtain ⟨done, htests, hsub⟩ := hI.consumed
  cases h with
  | dispatchTest t rest h1 h2 h3 h4 =>
      have htmem : t ∈ tests := by rw [htests, h2]; simp
      have htp : t ∈ s.pending := by rw [h2]; exact List.mem_cons_self t rest
      have htnr : t ∉ s.running := pinv_not_mem_running_of_mem_pending hI htp
      have hpnd : s.pending.Nodup := pinv_pending_nodup hnd hI
      have htrest : t ∉ rest := by
        rw [h2] at hpnd
        exact (List.nodup_cons.mp hpnd).1
      have ht0 := hI.pendingCounts t htp
      refine
        { consumed := ⟨done ++ [t], ?_, ?_⟩,
          runningMem := ?_, runningNodup := ?_, pendingCounts := ?_,
          runningCounts := ?_, doneCounts := ?_, otherCounts := ?_,
          settledShape := ?_, cleanupCalls := ?_, interruptedSettled := ?_ }
      · rw [htests, h2]; simp
      · show List.Sublist (startedTests (s.events ++ [Event.fileStart t])) (done ++ [t])
        rw [startedTests_append, startedTests_fileStart]
        exact hsub.append (List.Sublist.refl [t])
      · intro u hu
        dsimp only at hu
        rcases List.mem_append.mp hu with hu | hu
        · exact hI.runningMem u hu
        · rw [List.mem_singleton.mp hu]; exact htmem
      · dsimp only
        refine hI.runningNodup.append (List.nodup_singleton t) ?_
        intro a ha hb
        rw [List.mem_singleton.mp hb] at ha
        exact htnr ha
      · intro u hu
        dsimp only at hu ⊢
        have hne : t ≠ u := fun he => htrest (he ▸ hu)
        have h0 := hI.pendingCounts u (by rw [h2]; exact List.mem_cons_of_mem t hu)
        simp [h0.1, h0.2, hne]
      · intro u hu
        dsimp only at hu ⊢
        rcases List.mem_append.mp hu with hu | hu
        · have hne : t ≠ u := fun he => htnr (he ▸ hu)
          have h0 := hI.runningCounts u hu
          simp [h0.1, h0.2, hne]
        · rw [List.mem_singleton.mp hu]
          simp [ht0.1, ht0.2]
      · intro u humem hup hur
        dsimp only at hup hur ⊢
        have hne : t ≠ u := by
          intro he
          exact hur (by rw [← he]; simp)
        have hunr : u ∉ s.running := fun hu => hur (by simp [hu])
        have hunp : u ∉ s.pending := by
          rw [h2]
          intro hu
          rcases List.mem_cons.mp hu with hu | hu
          · exact hne hu.symm
          · exact hup hu
        have h0 := hI.doneCounts u humem hunp hunr
        rcases h0 with h0 | h0 <;> [left; right] <;> simp [h0.1, h0.2, hne]
      · intro u humem
        dsimp only
        have hne : t ≠ u := fun he => humem (he ▸ htmem)
        have h0 := hI.otherCounts u humem
        simp [h0.1, h0.2, hne]
      · exact hI.settledShape
      · dsimp only
        rw [List.count_append, hI.cleanupCalls]
        simp
      · exact hI.interruptedSettled
  | cancelAtGate t rest h1 h2 h3 h4 =>
      have htmem : t ∈ tests := by rw [htests, h2]; simp
      have htp : t ∈ s.pending := by rw [h2]; exact List.mem_cons_self t rest
      have htnr : t ∉ s.running := pinv_not_mem_running_of_mem_pending hI htp
      have hpnd : s.pending.Nodup := pinv_pending_nodup hnd hI
      have htrest : t ∉ rest := by
        rw [h2] at hpnd
        exact (List.nodup_cons.mp hpnd).1
      have ht0 := hI.pendingCounts t htp
      refine
        { consumed := ⟨done ++ [t], ?_, ?_⟩,
          runningMem := hI.runningMem, runningNodup := hI.runningNodup,
          pendingCounts := ?_, runningCounts := ?_, doneCounts := ?_,
          otherCounts := ?_, settledShape := hI.settledShape,
          cleanupCalls := ?_, interruptedSettled := hI.interruptedSettled }
      · rw [htests, h2]; simp
      · dsimp only
        rw [onError_events, startedTests_append, startedTests_fileFailure]
        rw [List.append_nil]
        exact hsub.trans (List.sublist_append_left done [t])
      · intro u hu
        dsimp only at hu ⊢
        have hne : t ≠ u := fun he => htrest (he ▸ hu)
        have h0 := hI.pendingCounts u (by rw [h2]; exact List.mem_cons_of_mem t hu)
        simp [h0.1, h0.2, hne]
      · intro u hu
        dsimp only at hu ⊢
        have hne : t ≠ u := fun he => htnr (he ▸ hu)
        have h0 := hI.runningCounts u hu
        simp [h0.1, h0.2, hne]
      · intro u humem hup hur
        dsimp only at hup hur ⊢
        by_cases he : t = u
        · subst he
          right
          simp [ht0.1, ht0.2]
        · have hunp : u ∉ s.pending := by
            rw [h2]
            intro hu
            rcases List.mem_cons.mp hu with hu | hu
            · exact he hu.symm
            · exact hup hu
          have h0 := hI.doneCounts u humem hunp hur
          rcases h0 with h0 | h0 <;> [left; right] <;> simp [h0.1, h0.2, he]
      · intro u humem
        dsimp only
        have hne : t ≠ u := fun he => humem (he ▸ htmem)
        have h0 := hI.otherCounts u humem
        simp [h0.1, h0.2, hne]
      · exact hI.cleanupCalls
  | completeOk t r h1 h2 h3 =>
      have htmem : t ∈ tests := hI.runningMem t h2
      have ht1 := hI.runningCounts t h2
      have htnp : t ∉ s.pending := fun hp =>
        pinv_not_mem_running_of_mem_pending hI hp h2
      refine
        { consumed := ⟨done, htests, ?_⟩,
          runningMem := ?_, runningNodup := hI.runningNodup.erase t,
          pendingCounts := ?_, runningCounts := ?_, doneCounts := ?_,
          otherCounts := ?_, settledShape := hI.settledShape,
          cleanupCalls := hI.cleanupCalls,
          interruptedSettled := hI.interruptedSettled }
      · dsimp only
        rw [startedTests_append, startedTests_fileSuccess, List.append_nil]
        exact hsub
      · intro u hu
        dsimp only at hu
        exact hI.runningMem u (List.mem_of_mem_erase hu)
      · intro u hu
        dsimp only at hu ⊢
        have hne : t ≠ u := fun he => htnp (he ▸ hu)
        have h0 := hI.pendingCounts u hu
        simp [h0.1, h0.2, hne]
      · intro u hu
        dsimp only at hu ⊢
        have hu' := (hI.runningNodup.mem_erase_iff.mp hu)
        have hne : t ≠ u := fun he => hu'.1 he.symm
        have h0 := hI.runningCounts u hu'.2
        simp [h0.1, h0.2, hne]
      · intro u humem hup hur
        dsimp only at hup hur ⊢
        by_cases he : t = u
        · subst he
          left
          simp [ht1.1, ht1.2]
        · have hunr : u ∉ s.running := by
            intro hu
            exact hur (hI.runningNodup.mem_erase_iff.mpr ⟨fun h => he h.symm, hu⟩)
          have h0 := hI.doneCounts u humem hup hunr
          rcases h0 with h0 | h0 <;> [left; right] <;> simp [h0.1, h0.2, he]
      · intro u humem
        dsimp only
        have hne : t ≠ u := fun he => humem (he ▸ htmem)
        have h0 := hI.otherCounts u humem
        simp [h0.1, h0.2, hne]
  | completeErr t e h1 h2 h3 h4 =>
      have htmem : t ∈ tests := hI.runningMem t h2
      have ht1 := hI.runningCounts t h2
      have htnp : t ∉ s.pending := fun hp =>
        pinv_not_mem_running_of_mem_pending hI hp h2
      refine
        { consumed := ⟨done, htests, ?_⟩,
          runningMem := ?_, runningNodup := hI.runningNodup.erase t,
          pendingCounts := ?_, runningCounts := ?_, doneCounts := ?_,
          otherCounts := ?_, settledShape := hI.settledShape,
          cleanupCalls := hI.cleanupCalls,
          interruptedSettled := hI.interruptedSettled }
      · dsimp only
        rw [onError_events, startedTests_append, startedTests_fileFailure,
          List.append_nil]
        exact hsub
      · intro u hu
        dsimp only at hu
        exact hI.runningMem u (List.mem_of_mem_erase hu)
      · intro u hu
        dsimp only at hu ⊢
        have hne : t ≠ u := fun he => htnp (he ▸ hu)
        have h0 := hI.pendingCounts u hu
        simp [h0.1, h0.2, hne]
      · intro u hu
        dsimp only at hu ⊢
        have hu' := (hI.runningNodup.mem_erase_iff.mp hu)
        have hne : t ≠ u := fun he => hu'.1 he.symm
        have h0 := hI.runningCounts u hu'.2
        simp [h0.1, h0.2, hne]
      · intro u humem hup hur
        dsimp only at hup hur ⊢
        by_cases he : t = u
        · subst he
          left
          simp [ht1.1, ht1.2]
        · have hunr : u ∉ s.running := by
            intro hu
            exact hur (hI.runningNodup.mem_erase_iff.mpr ⟨fun h => he h.symm, hu⟩)
          have h0 := hI.doneCounts u humem hup hunr
          rcases h0 with h0 | h0 <;> [left; right] <;> simp [h0.1, h0.2, he]
      · intro u humem
        dsimp only
        have hne : t ≠ u := fun he => humem (he ▸ htmem)
        have h0 := hI.otherCounts u humem
        simp [h0.1, h0.2, hne]
  | completeFatal t e h1 h2 h3 h4 =>
      have htmem : t ∈ tests := hI.runningMem t h2
      have ht1 := hI.runningCounts t h2
      have htnp : t ∉ s.pending := fun hp =>
        pinv_not_mem_running_of_mem_pending hI hp h2
      refine
        { consumed := ⟨done, htests, ?_⟩,
          runningMem := ?_, runningNodup := hI.runningNodup.erase t,
          pendingCounts := ?_, runningCounts := ?_, doneCounts := ?_,
          otherCounts := ?_, settledShape := hI.settledShape,
          cleanupCalls := ?_, interruptedSettled := hI.interruptedSettled }
      · dsimp only
        rw [onError_events, startedTests_append, startedTests_fileFailure,
          List.append_nil]
        exact hsub
      · intro u hu
        dsimp only at hu
        exact hI.runningMem u (List.mem_of_mem_erase hu)
      · intro u hu
        dsimp only at hu ⊢
        have hne : t ≠ u := fun he => htnp (he ▸ hu)
        have h0 := hI.pendingCounts u hu
        simp [h0.1, h0.2, hne]
      · intro u hu
        dsimp only at hu ⊢
        have hu' := (hI.runningNodup.mem_erase_iff.mp hu)
        have hne : t ≠ u := fun he => hu'.1 he.symm
        have h0 := hI.runningCounts u hu'.2
        simp [h0.1, h0.2, hne]
      · intro u humem hup hur
        dsimp only at hup hur ⊢
        by_cases he : t = u
        · subst he
          left
          simp [ht1.1, ht1.2]
        · have hunr : u ∉ s.running := by
            intro hu
            exact hur (hI.runningNodup.mem_erase_iff.mpr ⟨fun h => he h.symm, hu⟩)
          have h0 := hI.doneCounts u humem hup hunr
          rcases h0 with h0 | h0 <;> [left; right] <;> simp [h0.1, h0.2, he]
      · intro u humem
        dsimp only
        have hne : t ≠ u := fun he => humem (he ▸ htmem)
        have h0 := hI.otherCounts u humem
        simp [h0.1, h0.2, hne]
      · dsimp only
        rw [List.count_append, hI.cleanupCalls]
        simp
  | fireInterrupt h1 h2 h3 =>
      refine
        { consumed := ⟨done, htests, hsub⟩,
          runningMem := hI.runningMem, runningNodup := hI.runningNodup,
          pendingCounts := hI.pendingCounts,
          runningCounts := hI.runningCounts, doneCounts := hI.doneCounts,
          otherCounts := hI.otherCounts, settledShape := ?_,
          cleanupCalls := ?_, interruptedSettled := ?_ }
      · right; right; rfl
      · dsimp only
        rw [List.count_append, hI.cleanupCalls, h3]
        simp
      · intro _
        rfl
  | fireInterruptLate h1 h2 h3 =>
      exact
        { consumed := ⟨done, htests, hsub⟩,
          runningMem := hI.runningMem, runningNodup := hI.runningNodup,
          pendingCounts := hI.pendingCounts,
          runningCounts := hI.runningCounts, doneCounts := hI.doneCounts,
          otherCounts := hI.otherCounts, settledShape := hI.settledShape,
          cleanupCalls := hI.cleanupCalls,
          interruptedSettled := fun _ => h3 }
  | settleAll h1 h2 h3 h4 =>
      refine
        { consumed := ⟨done, htests, hsub⟩,
          runningMem := hI.runningMem, runningNodup := hI.runningNodup,
          pendingCounts := hI.pendingCounts,
          runningCounts := hI.runningCounts, doneCounts := hI.doneCounts,
          otherCounts := hI.otherCounts, settledShape := ?_,
          cleanupCalls := ?_, interruptedSettled := ?_ }
      · right; left; rfl
      · dsimp only
        rw [List.count_append, hI.cleanupCalls, h4]
        simp
      · intro _
        rfl

theorem preach_pinv {K : Nat} {oracle : Test → ExecResult}
    {tests : List Test} {s0 s : PState} (hnd : tests.Nodup)
    (h : PReach K oracle s0 s) (h0 : PInv tests s0) : PInv tests s := by
  induction h with
  | refl => exact h0
  | tail hab hbc ih => exact pinv_preserved hnd hbc ih

theorem inBandChain_result (oracle : Test → ExecResult) (b : Bool) (t : Test)
    (prev : Except JsError Unit) :
    (inBandChain oracle b t prev).result = Except.ok () := by
  cases prev with
  | error e => rfl
  | ok u =>
    by_cases hb : b
    · simp [inBandChain, hb]
    · cases hor : oracle t <;> simp [inBandChain, hb, hor]

theorem inBandChain_ok_events (oracle : Test → ExecResult) (b : Bool) (t : Test) :
    (inBandChain oracle b t (Except.ok ())).events = seqBlockEvents oracle b t := by
  by_cases hb : b
  · simp [inBandChain, seqBlockEvents, hb]
  · cases hor : oracle t <;> simp [inBandChain, seqBlockEvents, hb, hor]

theorem inBandChain_ok_calls (oracle : Test → ExecResult) (b : Bool) (t : Test) :
    (inBandChain oracle b t (Except.ok ())).calls =
      if b then ([] : List ExtCall) else [ExtCall.runTestInBand t] := by
  by_cases hb : b
  · simp [inBandChain, hb]
  · cases hor : oracle t <;> simp [inBandChain, hb, hor]

theorem inBandRunFrom_result (oracle : Test → ExecResult) (intr : Nat → Bool) :
    ∀ (ts : List Test) (i : Nat),
      (inBandRunFrom oracle intr i (Except.ok ()) ts).result = Except.ok ()
  | [], _ => rfl
  | t :: rest, i => by
    have hc := inBandChain_result oracle (intr i) t (Except.ok ())
    simp only [inBandRunFrom, hc]
    exact inBandRunFrom_result oracle intr rest (i + 1)

theorem inBandRunFrom_events (oracle : Test → ExecResult) (intr : Nat → Bool) :
    ∀ (ts : List Test) (i : Nat),
      (inBandRunFrom oracle intr i (Except.ok ()) ts).events =
        seqEventsFrom oracle intr i ts
  | [], _ => rfl
  | t :: rest, i => by
    have hc := inBandChain_result oracle (intr i) t (Except.ok ())
    simp only [inBandRunFrom, seqEventsFrom, hc,
      inBandChain_ok_events oracle (intr i) t]
    rw [inBandRunFrom_events oracle intr rest (i + 1)]

theorem inBandRunFrom_calls (oracle : Test → ExecResult) (intr : Nat → Bool) :
    ∀ (ts : List Test) (i : Nat),
      (inBandRunFrom oracle intr i (Except.ok ()) ts).calls =
        seqCallsFrom intr i ts
  | [], _ => rfl
  | t :: rest, i => by
    have hc := inBandChain_result oracle (intr i) t (Except.ok ())
    simp only [inBandRunFrom, seqCallsFrom, hc,
      inBandChain_ok_calls oracle (intr i) t]
    rw [inBandRunFrom_calls oracle intr rest (i + 1)]

theorem seqBlockEvents_counts_ne (oracle : Test → ExecResult) (b : Bool)
    {t u : Test} (h : u ≠ t) :
    startCount t (seqBlockEvents oracle b u) = 0 ∧
      termCount t (seqBlockEvents oracle b u) = 0 := by
  by_cases hb : b
  · constructor <;> simp [seqBlockEvents, hb, h]
  · cases hor : oracle u <;> constructor <;> simp [seqBlockEvents, hb, hor, h]

theorem seqEventsFrom_counts_notmem (oracle : Test → ExecResult)
    (intr : Nat → Bool) {t : Test} :
    ∀ {ts : List Test} (i : Nat), t ∉ ts →
      startCount t (seqEventsFrom oracle intr i ts) = 0 ∧
        termCount t (seqEventsFrom oracle intr i ts) = 0
  | [], _, _ => ⟨rfl, rfl⟩
  | u :: rest, i, h => by
    have hne : u ≠ t := fun he => h (by rw [he]; exact List.mem_cons_self t rest)
    have hblock := seqBlockEvents_counts_ne oracle (intr i) hne
    have hrest :=
      seqEventsFrom_counts_notmem oracle intr (i + 1)
        (fun hm => h (List.mem_cons_of_mem u hm))
    constructor <;>
      simp [seqEventsFrom, hblock.1, hblock.2, hrest.1, hrest.2]

theorem seqEventsFrom_started_sublist (oracle : Test → ExecResult)
    (intr : Nat → Bool) :
    ∀ (ts : List Test) (i : Nat),
      List.Sublist (startedTests (seqEventsFrom oracle intr i ts)) ts
  | [], _ => List.Sublist.refl []
  | t :: rest, i => by
    have ih := seqEventsFrom_started_sublist oracle intr rest (i + 1)
    by_cases hb : intr i
    · simp only [seqEventsFrom, seqBlockEvents, hb, if_pos, startedTests_append,
        startedTests_fileFailure, List.nil_append]
      exact ih.cons t
    · cases hor : oracle t <;>
        · simp only [seqEventsFrom, seqBlockEvents, hb, if_neg, hor,
            startedTests_append]
          show List.Sublist (startedTests [Event.fileStart t] ++ _) (t :: rest)
          rw [startedTests_fileStart]
          exact List.Sublist.cons₂ t ih

theorem seqEventsFrom_once (oracle : Test → ExecResult) (intr : Nat → Bool) :
    ∀ {ts : List Test} (i : Nat), ts.Nodup → ∀ t : Test,
      startCount t (seqEventsFrom oracle intr i ts) = 1 →
        termCount t (seqEventsFrom oracle intr i ts) = 1
  | [], _, _, t, h => by simp [seqEventsFrom] at h
  | u :: rest, i, hnd, t, h => by
    obtain ⟨hu, hndrest⟩ := List.nodup_cons.mp hnd
    by_cases he : u = t
    · subst he
      have hrest := seqEventsFrom_counts_notmem oracle intr (i + 1) hu
      by_cases hb : intr i
      · exfalso
        rw [seqEventsFrom, startCount_append] at h
        simp [seqBlockEvents, hb, hrest.1] at h
      · cases hor : oracle u <;>
          · rw [seqEventsFrom, termCount_append]
            simp [seqBlockEvents, hb, hor, hrest.2]
    · have hne : u ≠ t := he
      have hblock := seqBlockEvents_counts_ne oracle (intr i) hne
      rw [seqEventsFrom, startCount_append, hblock.1] at h
      rw [seqEventsFrom, termCount_append, hblock.2]
      simpa using seqEventsFrom_once oracle intr (i + 1) hndrest t (by simpa using h)

theorem seqCallsFrom_shape (intr : Nat → Bool) :
    ∀ (ts : List Test) (i : Nat) (c : ExtCall), c ∈ seqCallsFrom intr i ts →
      ∃ t, c = ExtCall.runTestInBand t
  | [], _, c, h => by simp [seqCallsFrom] at h
  | t :: rest, i, c, h => by
    rw [seqCallsFrom] at h
    rcases List.mem_append.mp h with h | h
    · by_cases hb : intr i
      · simp [hb] at h
      · simp only [hb, if_neg, List.mem_singleton] at h
        exact ⟨t, by simpa using h⟩
    · exact seqCallsFrom_shape intr rest (i + 1) c h

theorem seqEventsFrom_start_le (oracle : Test → ExecResult) (intr : Nat → Bool) :
    ∀ {ts : List Test} (i : Nat), ts.Nodup → ∀ t : Test,
      startCount t (seqEventsFrom oracle intr i ts) ≤ 1
  | [], _, _, t => by simp [seqEventsFrom]
  | u :: rest, i, hnd, t => by
    obtain ⟨hu, hndrest⟩ := List.nodup_cons.mp hnd
    rw [seqEventsFrom, startCount_append]
    by_cases he : u = t
    · subst he
      have hrest := (seqEventsFrom_counts_notmem oracle intr (i + 1) hu).1
      rw [hrest]
      by_cases hb : intr i
      · simp [seqBlockEvents, hb]
      · cases hor : oracle u <;> simp [seqBlockEvents, hb, hor]
    · rw [(seqBlockEvents_counts_ne oracle (intr i) he).1]
      simpa using seqEventsFrom_start_le oracle intr (i + 1) hndrest t

theorem createInBandTestRun_result (oracle : Test → ExecResult)
    (intr : Nat → Bool) (tests : List Test) :
    (createInBandTestRun oracle intr tests).result = Except.ok () :=
  inBandRunFrom_result oracle intr tests 0

theorem createInBandTestRun_events (oracle : Test → ExecResult)
    (intr : Nat → Bool) (tests : List Test) :
    (createInBandTestRun oracle intr tests).events =
      seqEventsFrom oracle intr 0 tests :=
  inBandRunFrom_events oracle intr tests 0

theorem createInBandTestRun_calls (oracle : Test → ExecResult)
    (intr : Nat → Bool) (tests : List Test) :
    (createInBandTestRun oracle intr tests).calls = seqCallsFrom intr 0 tests :=
  inBandRunFrom_calls oracle intr tests 0

theorem seqCallsFrom_no_interrupt (intr : Nat → Bool) :
    ∀ (ts : List Test) (i : Nat), (∀ j, intr j = false) →
      seqCallsFrom intr i ts = ts.map ExtCall.runTestInBand
  | [], _, _ => rfl
  | t :: rest, i, hall => by
    rw [seqCallsFrom, hall i]
    simp only [Bool.false_eq_true, if_neg, List.map_cons]
    rw [seqCallsFrom_no_interrupt intr rest (i + 1) hall]
    rfl

/- Mini-invariants of the parallel system that hold without any
assumption on the test list. -/

theorem pstep_alive {K : Nat} {oracle : Test → ExecResult} {s s' : PState}
    (h : PStep K oracle s s') : s.exitCode = none := by
  cases h <;> assumption

theorem pstep_cleanup {K : Nat} {oracle : Test → ExecResult} {s s' : PState}
    (h : PStep K oracle s s')
    (hc : s.calls.count ExtCall.endPool = if s.settled.isSome then 1 else 0) :
    s'.calls.count ExtCall.endPool = if s'.settled.isSome then 1 else 0 := by
  cases h with
  | dispatchTest t rest h1 h2 h3 h4 =>
      show (s.calls ++ [ExtCall.dispatchWorker t]).count ExtCall.endPool = _
      rw [List.count_append, hc]
      simp
  | cancelAtGate t rest h1 h2 h3 h4 => exact hc
  | completeOk t r h1 h2 h3 => exact hc
  | completeErr t e h1 h2 h3 h4 => exact hc
  | completeFatal t e h1 h2 h3 h4 =>
      show (s.calls ++ [ExtCall.logDiagnostic workerQuitMessage,
        ExtCall.exitProc 1]).count ExtCall.endPool = _
      rw [List.count_append, hc]
      simp
  | fireInterrupt h1 h2 h3 =>
      show (s.calls ++ [ExtCall.endPool]).count ExtCall.endPool = _
      rw [List.count_append, hc, h3]
      simp
  | fireInterruptLate h1 h2 h3 => exact hc
  | settleAll h1 h2 h3 h4 =>
      show (s.calls ++ [ExtCall.endPool]).count ExtCall.endPool = _
      rw [List.count_append, hc, h4]
      simp

theorem preach_cleanup {K : Nat} {oracle : Test → ExecResult}
    {g : GlobalConfig} {tests : List Test} {s : PState}
    (h : PReach K oracle (pInit g tests) s) :
    s.calls.count ExtCall.endPool = if s.settled.isSome then 1 else 0 := by
  induction h with
  | refl => simp [pInit]
  | tail hab hbc ih => exact pstep_cleanup hbc ih

theorem pstep_settled_shape {K : Nat} {oracle : Test → ExecResult}
    {s s' : PState} (h : PStep K oracle s s')
    (hs : s.settled = none ∨ s.settled = some (Except.ok ()) ∨
      s.settled = some (Except.error cancelRunError)) :
    s'.settled = none ∨ s'.settled = some (Except.ok ()) ∨
      s'.settled = some (Except.error cancelRunError) := by
  cases h with
  | dispatchTest t rest h1 h2 h3 h4 => exact hs
  | cancelAtGate t rest h1 h2 h3 h4 => exact hs
  | completeOk t r h1 h2 h3 => exact hs
  | completeErr t e h1 h2 h3 h4 => exact hs
  | completeFatal t e h1 h2 h3 h4 => exact hs
  | fireInterrupt h1 h2 h3 => exact Or.inr (Or.inr rfl)
  | fireInterruptLate h1 h2 h3 => exact hs
  | settleAll h1 h2 h3 h4 => exact Or.inr (Or.inl rfl)

theorem preach_settled_shape {K : Nat} {oracle : Test → ExecResult}
    {g : GlobalConfig} {tests : List Test} {s : PState}
    (h : PReach K oracle (pInit g tests) s) :
    s.settled = none ∨ s.settled = some (Except.ok ()) ∨
      s.settled = some (Except.error cancelRunError) := by
  induction h with
  | refl => exact Or.inl rfl
  | tail hab hbc ih => exact pstep_settled_shape hbc ih

/- Reachability of the concrete fixture states. -/

theorem reach_dispatchedA1 :
    PReach (gateWidth gOne) oracleOk (pInit gOne [tA]) dispatchedA1 :=
  Relation.ReflTransGen.single
    (PStep.dispatchTest (pInit gOne [tA]) tA [] rfl rfl (by decide) rfl)

theorem reach_drainedA1 :
    PReach (gateWidth gOne) oracleOk (pInit gOne [tA]) drainedA1 :=
  Relation.ReflTransGen.tail reach_dispatchedA1
    (PStep.completeOk dispatchedA1 tA 0 rfl (by decide) rfl)

/- Claim theorems. -/

/-- Claim C6: in the parallel strategy, at no point are more than K tests
concurrently in flight, where K is the run's configured concurrency: the
`throat` gate is constructed with width `this._globalConfig.maxWorkers`,
the concurrency configured for the run. -/
theorem C6_in_flight_bounded_by_gate (g : GlobalConfig)
    (oracle : Test → ExecResult) (tests : List Test) (s : PState)
    (h : PReach (gateWidth g) oracle (pInit g tests) s) :
    s.running.length ≤ g.maxWorkers ∧ gateWidth g = g.maxWorkers :=
  ⟨preach_running_le h (by simp [pInit]), rfl⟩

/-- Witness for C6 at a concrete one-test run with `maxWorkers = 1`. -/
theorem C6_witness :
    dispatchedA1.running.length ≤ gOne.maxWorkers ∧
      gateWidth gOne = gOne.maxWorkers :=
  C6_in_flight_bounded_by_gate gOne oracleOk [tA] dispatchedA1 reach_dispatchedA1

/-- Claim C3 (amended): the worker pool's teardown `worker.end()` is
invoked exactly once whenever the run's outcome is delivered (the race
settled, Completed or Cancelled), and it has not been invoked while the
race is unsettled; in particular, on the fatal-fault path the process
exits without pool teardown unless the race had already settled. -/
theorem C3_teardown_once_when_delivered (g : GlobalConfig)
    (oracle : Test → ExecResult) (tests : List Test) (s : PState)
    (h : PReach (gateWidth g) oracle (pInit g tests) s) :
    (s.settled.isSome = true → s.calls.count ExtCall.endPool = 1) ∧
    (s.settled = none → s.calls.count ExtCall.endPool = 0) := by
  have hc := preach_cleanup h
  constructor
  · intro hs
    rw [hc, hs]
    rfl
  · intro hs
    rw [hc, hs]
    rfl

/-- Witness for C3 at the concrete cancelled one-test run `c9s2`. -/
theorem C3_witness :
    (c9s2.settled.isSome = true → c9s2.calls.count ExtCall.endPool = 1) ∧
    (c9s2.settled = none → c9s2.calls.count ExtCall.endPool = 0) :=
  C3_teardown_once_when_delivered gOne oracleOk [tA, tB] c9s2
    (Relation.ReflTransGen.tail
      (Relation.ReflTransGen.single
        (PStep.dispatchTest (pInit gOne [tA, tB]) tA [tB] rfl rfl (by decide) rfl))
      (PStep.fireInterrupt c9s1 rfl rfl rfl))

/-- Counterexample for C3 as stated: in the one-test parallel run whose
test reports a fatal pool fault, the process exits (non-zero) while the
race is still unsettled, and no teardown call has been made — teardown is
not invoked on the fatal exit path, and no further step can perform it. -/
theorem C3_counterexample :
    PReach (gateWidth gOne) oracleFatalA (pInit gOne [tA]) c3s2 ∧
    c3s2.exitCode = some 1 ∧
    ExtCall.exitProc 1 ∈ c3s2.calls ∧
    c3s2.calls.count ExtCall.endPool = 0 ∧
    (∀ s', ¬ PStep (gateWidth gOne) oracleFatalA c3s2 s') := by
  refine ⟨?_, rfl, by decide, by decide, ?_⟩
  · exact
      Relation.ReflTransGen.tail
        (Relation.ReflTransGen.single
          (PStep.dispatchTest (pInit gOne [tA]) tA [] rfl rfl (by decide) rfl))
        (PStep.completeFatal dispatchedA1 tA fatalError rfl (by decide)
          (by decide) (by decide))
  · intro s' hstep
    have := pstep_alive hstep
    simp [c3s2] at this

/-- Claim C4: when a dispatched test's error carries the
`ProcessTerminatedError` type tag (classification is by the tag, not the
message text), the scheduler emits the test-file-failure event for that
test, then logs the diagnostic and exits the process with status 1, and
no further step — in particular no further dispatch — is possible. -/
theorem C4_fatal_fault_escalates (K : Nat) (oracle : Test → ExecResult)
    (s : PState) (t : Test) (e : JsError)
    (halive : s.exitCode = none) (ht : t ∈ s.running)
    (he : oracle t = ExecResult.err e)
    (hty : e.type = some processTerminatedType) :
    (∃ s', PStep K oracle s s' ∧
      s'.events = s.events ++ [Event.fileFailure t (some e)] ∧
      s'.calls = s.calls ++
        [ExtCall.logDiagnostic workerQuitMessage, ExtCall.exitProc 1] ∧
      s'.exitCode = some 1 ∧
      (∀ u, ¬ PStep K oracle s' u)) ∧
    (∀ e₁ e₂ : JsError, ∀ u : Test, e₁.type = e₂.type →
      (onError (some e₁) u).fatal = (onError (some e₂) u).fatal) := by
  have hfat : (onError (some e) t).fatal = true := by
    simp [onError, jsTypeField, hty]
  constructor
  · refine ⟨_, PStep.completeFatal s t e halive ht he hfat, ?_, rfl, rfl, ?_⟩
    · show s.events ++ (onError (some e) t).events = _
      rw [onError_events]
    · intro u hstep
      have := pstep_alive hstep
      simp at this
  · intro e₁ e₂ u hty12
    simp [onError, jsTypeField, hty12]

/-- Witness for C4: the fatal fault of `tA` in the dispatched one-test
run, with every hypothesis discharged concretely. -/
theorem C4_witness :
    dispatchedA1.exitCode = none ∧ tA ∈ dispatchedA1.running ∧
    oracleFatalA tA = ExecResult.err fatalError ∧
    fatalError.type = some processTerminatedType ∧
    ((∃ s', PStep (gateWidth gOne) oracleFatalA dispatchedA1 s' ∧
      s'.events = dispatchedA1.events ++ [Event.fileFailure tA (some fatalError)] ∧
      s'.calls = dispatchedA1.calls ++
        [ExtCall.logDiagnostic workerQuitMessage, ExtCall.exitProc 1] ∧
      s'.exitCode = some 1 ∧
      (∀ u, ¬ PStep (gateWidth gOne) oracleFatalA s' u)) ∧
    (∀ e₁ e₂ : JsError, ∀ u : Test, e₁.type = e₂.type →
      (onError (some e₁) u).fatal = (onError (some e₂) u).fatal)) :=
  ⟨rfl, by decide, by decide, rfl,
    C4_fatal_fault_escalates (gateWidth gOne) oracleFatalA dispatchedA1 tA
      fatalError rfl (by decide) (by decide) rfl⟩

/-- Claim C7: tests are admitted and dispatched in exact input-list order
in both strategies — the sequence of dispatched tests is an
order-preserving sublist of the input list — and the sequential strategy
additionally processes tests one at a time: its event stream is exactly
the concatenation, in input order, of each test's own contiguous block of
events. -/
theorem C7_dispatch_in_input_order (g : GlobalConfig)
    (oracle : Test → ExecResult) (intr : Nat → Bool) (tests : List Test)
    (s : PState) (hnd : tests.Nodup)
    (h : PReach (gateWidth g) oracle (pInit g tests) s) :
    List.Sublist (startedTests s.events) tests ∧
    (createInBandTestRun oracle intr tests).events =
      seqEventsFrom oracle intr 0 tests ∧
    List.Sublist (startedTests (createInBandTestRun oracle intr tests).events)
      tests := by
  have hI := preach_pinv hnd h (pinv_init g tests)
  obtain ⟨done, htests, hsub⟩ := hI.consumed
  refine ⟨?_, createInBandTestRun_events oracle intr tests, ?_⟩
  · rw [htests]
    exact hsub.trans (List.sublist_append_left done s.pending)
  · rw [createInBandTestRun_events oracle intr tests]
    exact seqEventsFrom_started_sublist oracle intr tests 0

/-- Witness for C7 at a concrete one-test run. -/
theorem C7_witness :
    ([tA] : List Test).Nodup ∧
    List.Sublist (startedTests dispatchedA1.events) [tA] ∧
    (createInBandTestRun oracleOk intrNever [tA]).events =
      seqEventsFrom oracleOk intrNever 0 [tA] ∧
    List.Sublist (startedTests (createInBandTestRun oracleOk intrNever [tA]).events)
      [tA] :=
  ⟨by decide,
    C7_dispatch_in_input_order gOne oracleOk intrNever [tA] dispatchedA1
      (by decide) reach_dispatchedA1⟩

/-- Counterexample for C1 as stated: in a parallel run with gate width
two, `tA` and `tB` are both admitted (their start events fire); `tA`'s
fatal pool fault then terminates the process, so the admitted `tB` gets
no terminal event, and the exited state can take no further step. -/
theorem C1_counterexample :
    PReach (gateWidth gTwo) oracleFatalA (pInit gTwo [tA, tB]) c1s3 ∧
    startCount tB c1s3.events = 1 ∧
    termCount tB c1s3.events = 0 ∧
    c1s3.exitCode = some 1 ∧
    (∀ s', ¬ PStep (gateWidth gTwo) oracleFatalA c1s3 s') := by
  refine ⟨?_, by decide, by decide, rfl, ?_⟩
  · exact
      Relation.ReflTransGen.tail
        (Relation.ReflTransGen.tail
          (Relation.ReflTransGen.single
            (PStep.dispatchTest (pInit gTwo [tA, tB]) tA [tB] rfl rfl
              (by decide) rfl))
          (PStep.dispatchTest c1s1 tB [] rfl rfl (by decide) rfl))
        (PStep.completeFatal c1s2 tA fatalError rfl (by decide) (by decide)
          (by decide))
  · intro s' hstep
    have := pstep_alive hstep
    simp [c1s3] at this

/-- Claim C1 (amended): for every run that does not hit a fatal pool
fault, every admitted test (one with a start event) has exactly one
terminal event, in both strategies: sequential runs always satisfy it,
and a parallel run satisfies it once its queue has drained and all
dispatched executions have settled — which every fatal-free run reaches,
while a fatal `exit(1)` can leave an admitted in-flight test with no
terminal event (see the counterexample). -/
theorem C1_admitted_get_one_terminal (g : GlobalConfig)
    (oracle : Test → ExecResult) (intr : Nat → Bool) (tests : List Test)
    (s : PState) (hnd : tests.Nodup)
    (h : PReach (gateWidth g) oracle (pInit g tests) s)
    (hp : s.pending = []) (hr : s.running = []) :
    (∀ t, startCount t s.events ≤ 1 ∧
      (startCount t s.events = 1 → termCount t s.events = 1)) ∧
    (∀ t, startCount t (createInBandTestRun oracle intr tests).events ≤ 1 ∧
      (startCount t (createInBandTestRun oracle intr tests).events = 1 →
        termCount t (createInBandTestRun oracle intr tests).events = 1)) := by
  have hI := preach_pinv hnd h (pinv_init g tests)
  constructor
  · intro t
    by_cases hmem : t ∈ tests
    · have hd := hI.doneCounts t hmem (by rw [hp]; exact List.not_mem_nil t)
        (by rw [hr]; exact List.not_mem_nil t)
      rcases hd with hd | hd
      · exact ⟨le_of_eq hd.1, fun _ => hd.2⟩
      · rw [hd.1]
        exact ⟨by omega, by omega⟩
    · have ho := hI.otherCounts t hmem
      rw [ho.1]
      exact ⟨by omega, by omega⟩
  · intro t
    rw [createInBandTestRun_events oracle intr tests]
    exact ⟨seqEventsFrom_start_le oracle intr 0 hnd t,
      seqEventsFrom_once oracle intr 0 hnd t⟩

/-- Witness for C1 (amended) at a concrete drained one-test run. -/
theorem C1_witness :
    ([tA] : List Test).Nodup ∧ drainedA1.pending = [] ∧
    drainedA1.running = [] ∧
    (startCount tA drainedA1.events = 1 → termCount tA drainedA1.events = 1) ∧
    (startCount tA (createInBandTestRun oracleOk intrNever [tA]).events = 1 →
      termCount tA (createInBandTestRun oracleOk intrNever [tA]).events = 1) :=
  ⟨by decide, rfl, rfl,
    ((C1_admitted_get_one_terminal gOne oracleOk intrNever [tA] drainedA1
      (by decide) reach_drainedA1 rfl rfl).1 tA).2,
    ((C1_admitted_get_one_terminal gOne oracleOk intrNever [tA] drainedA1
      (by decide) reach_drainedA1 rfl rfl).2 tA).2⟩

/-- Claim C5: for every run that does not hit a fatal fault, `runTests`
resolves normally, never with a rejection: the sequential chain always
fulfills (its final catch absorbs every error, cancellation included),
and in the parallel strategy the race only ever settles fulfilled (all
work done: Completed) or rejected with the CancelRun signal (Cancelled);
`then(cleanup, cleanup)` maps both settlements to a normal resolution,
and every alive drained run reaches such a delivered outcome. -/
theorem C5_resolves_completed_or_cancelled (g : GlobalConfig)
    (oracle : Test → ExecResult) (intr : Nat → Bool) (tests : List Test)
    (s : PState) (h : PReach (gateWidth g) oracle (pInit g tests) s) :
    (createInBandTestRun oracle intr tests).result = Except.ok () ∧
    (∀ r, s.settled = some r →
      r = Except.ok () ∨ r = Except.error cancelRunError) ∧
    (∀ r, s.settled = some r →
      thenCleanup r (Except.ok ()) = Except.ok RunOutcome.completed ∨
      thenCleanup r (Except.ok ()) = Except.ok RunOutcome.cancelled) ∧
    (s.exitCode = none → s.pending = [] → s.running = [] →
      ∃ s', PReach (gateWidth g) oracle s s' ∧
        (deliveredOutcome s' = some (Except.ok RunOutcome.completed) ∨
          deliveredOutcome s' = some (Except.ok RunOutcome.cancelled))) := by
  refine ⟨createInBandTestRun_result oracle intr tests, ?_, ?_, ?_⟩
  · intro r hr
    rcases preach_settled_shape h with hs | hs | hs
    · rw [hr] at hs
      exact absurd hs (by simp)
    · rw [hr] at hs
      exact Or.inl (Option.some.inj hs)
    · rw [hr] at hs
      exact Or.inr (Option.some.inj hs)
  · intro r _
    cases r with
    | ok u => exact Or.inl rfl
    | error e => exact Or.inr rfl
  · intro halive hp hr
    rcases preach_settled_shape h with hs | hs | hs
    · exact ⟨_, Relation.ReflTransGen.single (PStep.settleAll s halive hp hr hs),
        Or.inl (by simp [deliveredOutcome, thenCleanup])⟩
    · exact ⟨s, Relation.ReflTransGen.refl,
        Or.inl (by simp [deliveredOutcome, hs, thenCleanup])⟩
    · exact ⟨s, Relation.ReflTransGen.refl,
        Or.inr (by simp [deliveredOutcome, hs, thenCleanup])⟩

/-- Witness for C5 at a concrete drained one-test run. -/
theorem C5_witness :
    (createInBandTestRun oracleOk intrNever [tA]).result = Except.ok () ∧
    (∃ s', PReach (gateWidth gOne) oracleOk drainedA1 s' ∧
      (deliveredOutcome s' = some (Except.ok RunOutcome.completed) ∨
        deliveredOutcome s' = some (Except.ok RunOutcome.cancelled))) :=
  ⟨(C5_resolves_completed_or_cancelled gOne oracleOk intrNever [tA] drainedA1
      reach_drainedA1).1,
    (C5_resolves_completed_or_cancelled gOne oracleOk intrNever [tA] drainedA1
      reach_drainedA1).2.2.2 rfl rfl rfl⟩

/-- Claim C8: a test whose execution rejects with an ordinary (non-fatal)
error has the error captured at the scheduler boundary and converted into
a test-file-failure event; the sequential chain still fulfills (nothing is
re-raised to the caller), and in the parallel strategy the run continues:
the process stays alive and the remaining queue is untouched. -/
theorem C8_ordinary_error_captured (K : Nat) (oracle : Test → ExecResult)
    (s : PState) (t : Test) (e : JsError)
    (hor : oracle t = ExecResult.err e)
    (hfat : (onError (some e) t).fatal = false)
    (halive : s.exitCode = none) (ht : t ∈ s.running) :
    (inBandChain oracle false t (Except.ok ())).result = Except.ok () ∧
    (inBandChain oracle false t (Except.ok ())).events =
      [Event.fileStart t, Event.fileFailure t (some e)] ∧
    (∃ s', PStep K oracle s s' ∧
      s'.events = s.events ++ [Event.fileFailure t (some e)] ∧
      s'.exitCode = none ∧
      s'.pending = s.pending) := by
  refine ⟨inBandChain_result oracle false t (Except.ok ()), ?_, ?_⟩
  · simp [inBandChain, hor]
  · refine ⟨_, PStep.completeErr s t e halive ht hor hfat, ?_, halive, rfl⟩
    show s.events ++ (onError (some e) t).events = _
    rw [onError_events]

/-- Witness for C8: the ordinary failure of `tA` in the dispatched
one-test run. -/
theorem C8_witness :
    oracleErrA tA = ExecResult.err ordinaryError ∧
    (onError (some ordinaryError) tA).fatal = false ∧
    dispatchedA1.exitCode = none ∧ tA ∈ dispatchedA1.running ∧
    (inBandChain oracleErrA false tA (Except.ok ())).events =
      [Event.fileStart tA, Event.fileFailure tA (some ordinaryError)] ∧
    (∃ s', PStep 1 oracleErrA dispatchedA1 s' ∧
      s'.events = dispatchedA1.events ++
        [Event.fileFailure tA (some ordinaryError)] ∧
      s'.exitCode = none ∧
      s'.pending = dispatchedA1.pending) :=
  ⟨by decide, by decide, rfl, by decide,
    (C8_ordinary_error_captured 1 oracleErrA dispatchedA1 tA ordinaryError
      (by decide) (by decide) rfl (by decide)).2.1,
    (C8_ordinary_error_captured 1 oracleErrA dispatchedA1 tA ordinaryError
      (by decide) (by decide) rfl (by decide)).2.2⟩

/-- Claim C9: there is a parallel run in which the watcher interrupt
fires while `tB` waits at the gate; the post-acquire re-check rejects
with no error value (JS `undefined`, here `none`), and the shared
`onError` handler then emits a test-file-failure event carrying that
undefined error and reads the `type` field of an undefined value, which
raises a TypeError. -/
theorem C9_gate_cancel_undefined_failure :
    PReach (gateWidth gOne) oracleOk (pInit gOne [tA, tB]) c9s4 ∧
    c9s4.events =
      [Event.fileStart tA, Event.fileSuccess tA 0, Event.fileFailure tB none] ∧
    c9s4.handlerTypeErrors = 1 ∧
    (onError none tB).events = [Event.fileFailure tB none] ∧
    (onError none tB).typeErrorRaised = true ∧
    jsTypeField none = Except.error () := by
  refine ⟨?_, rfl, rfl, rfl, rfl, rfl⟩
  exact
    Relation.ReflTransGen.tail
      (Relation.ReflTransGen.tail
        (Relation.ReflTransGen.tail
          (Relation.ReflTransGen.single
            (PStep.dispatchTest (pInit gOne [tA, tB]) tA [tB] rfl rfl
              (by decide) rfl))
          (PStep.fireInterrupt c9s1 rfl rfl rfl))
        (PStep.completeOk c9s2 tA 0 rfl (by decide) rfl))
      (PStep.cancelAtGate c9s3 tB [] rfl rfl (by decide) rfl)

/-- Claim C2 (divergence exhibit): with the watcher already interrupted
before a sequential run starts, the pre-test check throws CancelRun, but
the same chain's catch converts it into a test-file-failure event
carrying the CancelRun error: one failure event per test is emitted
instead of the zero events the claim states (the test is indeed never
executed in-band).  The parallel gate re-check likewise hands its
`undefined` rejection to `onError`, which emits a failure event. -/
theorem C2_interrupted_run_emits_failure :
    (createInBandTestRun oracleOk intrAlways [tA]).events =
      [Event.fileFailure tA (some cancelRunError)] ∧
    (createInBandTestRun oracleOk intrAlways [tA]).events ≠ [] ∧
    (createInBandTestRun oracleOk intrAlways [tA]).calls = [] ∧
    (∀ t : Test, (onError none t).events = [Event.fileFailure t none]) :=
  ⟨rfl, by decide, rfl, fun _ => rfl⟩

/-- Claim C10: a serial run (`options.serial = true`) never constructs
the worker-pool collaborator: every call it makes to a collaborator is an
in-band single-test execution — no pool creation, no worker dispatch and
no pool teardown occur — and with no interruption every test of the list
is executed in-band, in order. -/
theorem C10_serial_never_touches_pool (g : GlobalConfig)
    (oracle : Test → ExecResult) (intr : Nat → Bool) (tests : List Test)
    (o : TestRunnerOptions) (evs : List Event) (calls : List ExtCall)
    (hser : o.serial = true)
    (hb : RunTestsBehaviour g oracle intr tests o evs calls) :
    (∀ n r : Nat, ExtCall.createPool n r ∉ calls) ∧
    ExtCall.endPool ∉ calls ∧
    (∀ t, ExtCall.dispatchWorker t ∉ calls) ∧
    (∀ c ∈ calls, ∃ t, c = ExtCall.runTestInBand t) ∧
    ((∀ j, intr j = false) → calls = tests.map ExtCall.runTestInBand) := by
  cases hb with
  | inBand hs =>
      have hshape : ∀ c ∈ (createInBandTestRun oracle intr tests).calls,
          ∃ t, c = ExtCall.runTestInBand t := by
        rw [createInBandTestRun_calls oracle intr tests]
        exact fun c hc => seqCallsFrom_shape intr tests 0 c hc
      refine ⟨?_, ?_, ?_, hshape, ?_⟩
      · intro n r hmem
        obtain ⟨u, hu⟩ := hshape _ hmem
        exact ExtCall.noConfusion hu
      · intro hmem
        obtain ⟨u, hu⟩ := hshape _ hmem
        exact ExtCall.noConfusion hu
      · intro t hmem
        obtain ⟨u, hu⟩ := hshape _ hmem
        exact ExtCall.noConfusion hu
      · intro hall
        rw [createInBandTestRun_calls oracle intr tests]
        exact seqCallsFrom_no_interrupt intr tests 0 hall
  | parallel s hs hreach =>
      rw [hser] at hs
      simp at hs

/-- Witness for C10 at a concrete serial one-test run. -/
theorem C10_witness :
    optSerial.serial = true ∧
    ExtCall.endPool ∉ (createInBandTestRun oracleOk intrNever [tA]).calls ∧
    (createInBandTestRun oracleOk intrNever [tA]).calls =
      [tA].map ExtCall.runTestInBand :=
  ⟨rfl,
    (C10_serial_never_touches_pool gOne oracleOk intrNever [tA] optSerial
      (createInBandTestRun oracleOk intrNever [tA]).events
      (createInBandTestRun oracleOk intrNever [tA]).calls rfl
      (RunTestsBehaviour.inBand rfl)).2.1,
    (C10_serial_never_touches_pool gOne oracleOk intrNever [tA] optSerial
      (createInBandTestRun oracleOk intrNever [tA]).events
      (createInBandTestRun oracleOk intrNever [tA]).calls rfl
      (RunTestsBehaviour.inBand rfl)).2.2.2.2 (fun _ => rfl)⟩

end JestRunner
